import Mathlib

/-!
Verification of the Committee Manager domain layer.

The program is a rotating-savings-committee manager.  Its domain layer is
embedded shallowly here: the IndexedDB object stores become lists of records
inside a `DB` structure (store keys are auto-assigned numeric ids, modelled by
explicit counters; `getByIndex` on `committeeId` becomes a list filter; `put`
becomes a replace-by-id map; cascading deletes inside a transaction become
filters), and the relevant UI-level handlers (`MemberForm.handleSubmit`,
`handleSavePayment`, `CommitteeForm.handleSubmit`, `canConductDraw`,
`eligibleForDraw`, `effectiveDuration`) become pure state-transition
functions.  JavaScript `Date` values are modelled as calendar triples
(year, zero-based month, day) with the `Date(y, m, d)` constructor's month
overflow normalisation; comparison of two such normalised dates by timestamp
is lexicographic comparison of the triples.
-/

namespace CommitteeManager

/-- Share type of a member, from `types.ts`. -/
inductive ShareType where
  | Full
  | Half
  deriving DecidableEq, Repr

/-- Payer type of a payment or winner, from `types.ts`. -/
inductive PayerType where
  | member
  | pair
  deriving DecidableEq, Repr

/-- Payment status, from `types.ts`. -/
inductive PaymentStatus where
  | Paid
  | Pending
  | Late
  deriving DecidableEq, Repr

/-- Calendar date: year, zero-based month (as in JS `Date`), day of month. -/
structure CalDate where
  year : Nat
  month : Nat
  day : Nat
  deriving DecidableEq, Repr

/-- The JS `new Date(y, m, d)` constructor semantics restricted to month
overflow: months at or beyond 12 roll over into later years. -/
def jsMkDate (y m d : Nat) : CalDate :=
  ⟨y + m / 12, m % 12, d⟩

/-- Timestamp comparison `a < b` of two normalised calendar dates. -/
def dateLt (a b : CalDate) : Bool :=
  decide (a.year < b.year ∨
    (a.year = b.year ∧ (a.month < b.month ∨ (a.month = b.month ∧ a.day < b.day))))

/-- Committee record, from `types.ts`. -/
structure Committee where
  id : Nat
  name : String
  contribution : Int
  startDate : CalDate
  allowHalfShare : Bool
  deriving DecidableEq, Repr

/-- Member record, from `types.ts`; `pairId = none` is an unpaired member. -/
structure Member where
  id : Nat
  committeeId : Nat
  name : String
  phone : String
  shareType : ShareType
  pairId : Option Nat
  deriving DecidableEq, Repr

/-- Pair record, from `types.ts`. -/
structure Pair where
  id : Nat
  committeeId : Nat
  member1Id : Nat
  member2Id : Nat
  name : String
  deriving DecidableEq, Repr

/-- Payment record, from `types.ts`. -/
structure Payment where
  id : Nat
  committeeId : Nat
  payerId : Nat
  payerType : PayerType
  month : Nat
  status : PaymentStatus
  paidOn : Option CalDate
  deriving DecidableEq, Repr

/-- Draw record, from `types.ts`. -/
structure Draw where
  id : Nat
  committeeId : Nat
  month : Nat
  winnerId : Nat
  winnerType : PayerType
  drawDate : CalDate
  deriving DecidableEq, Repr

/-- The five IndexedDB object stores plus the auto-increment key counters
of the stores that the modelled operations insert into. -/
structure DB where
  committees : List Committee
  members : List Member
  pairs : List Pair
  payments : List Payment
  draws : List Draw
  nextMemberId : Nat
  nextPairId : Nat
  nextPaymentId : Nat
  deriving DecidableEq, Repr

/-- Error kinds of the cascade/integrity layer (§7 of the design). -/
inductive DbError where
  | notFound
  | conflict
  deriving DecidableEq, Repr

/-- The `committeeId` index lookup `getMembersByCommittee`. -/
def membersOf (db : DB) (cid : Nat) : List Member :=
  db.members.filter (fun m => m.committeeId == cid)

/-- The `committeeId` index lookup `getPairsByCommittee`. -/
def pairsOf (db : DB) (cid : Nat) : List Pair :=
  db.pairs.filter (fun p => p.committeeId == cid)

/-- The `committeeId` index lookup `getPaymentsByCommittee`. -/
def paymentsOf (db : DB) (cid : Nat) : List Payment :=
  db.payments.filter (fun p => p.committeeId == cid)

/-- The `committeeId` index lookup `getDrawsByCommittee`. -/
def drawsOf (db : DB) (cid : Nat) : List Draw :=
  db.draws.filter (fun d => d.committeeId == cid)

/-- Shareholder unit: a full-share member or a pair, as the uniform
`{id, type, name}` objects built in `PaymentTracker` and `DrawManager`. -/
structure Shareholder where
  id : Nat
  type : PayerType
  name : String
  deriving DecidableEq, Repr

/-- The shareholder list of a committee, as computed in `DrawManager`:
full-share members followed by pairs. -/
def shareholdersOf (db : DB) (cid : Nat) : List Shareholder :=
  ((membersOf db cid).filter (fun m => decide (m.shareType = ShareType.Full))).map
      (fun m => ⟨m.id, PayerType.member, m.name⟩) ++
    (pairsOf db cid).map (fun p => ⟨p.id, PayerType.pair, p.name⟩)

/-- The committee-detail duration, `effectiveDuration` in `App.tsx`:
full-share member count plus pair count of the committee. -/
def effectiveDuration (db : DB) (cid : Nat) : Nat :=
  ((membersOf db cid).filter (fun m => decide (m.shareType = ShareType.Full))).length +
    (pairsOf db cid).length

/-- The dashboard's duration computation in `App.tsx` (`Dashboard`),
written over the global member and pair lists. -/
def dashboardDuration (db : DB) (cid : Nat) : Nat :=
  (db.members.filter
      (fun m => m.committeeId == cid && decide (m.shareType = ShareType.Full))).length +
    (db.pairs.filter (fun p => p.committeeId == cid)).length

/-- Due date of month `i` in `handleSavePayment`:
`new Date(start.getFullYear(), start.getMonth() + month, 10)`. -/
def dueDate (start : CalDate) (i : Nat) : CalDate :=
  jsMkDate start.year (start.month + i) 10

/-- Status computation of `handleSavePayment`:
`paymentDate > dueDate ? 'Late' : 'Paid'`. -/
def paymentStatusOf (start : CalDate) (i : Nat) (paidOn : CalDate) : PaymentStatus :=
  if dateLt (dueDate start i) paidOn then PaymentStatus.Late else PaymentStatus.Paid

/-- The spec's due date, written from its words: day 10 of calendar month
(start-month + i), with month rollover into later years. -/
def specDueDate (start : CalDate) (i : Nat) : CalDate :=
  ⟨start.year + (start.month + i) / 12, (start.month + i) % 12, 10⟩

/-- The spec's "strictly after" order on calendar dates: `specAfter d e`
means `d` is strictly after `e`. -/
def specAfter (d e : CalDate) : Prop :=
  e.year < d.year ∨ (e.year = d.year ∧ (e.month < d.month ∨ (e.month = d.month ∧ e.day < d.day)))

instance (d e : CalDate) : Decidable (specAfter d e) := by
  unfold specAfter
  infer_instance

/-- The `MemberForm.handleSubmit` flow of `App.tsx`: adding a member.  For a
half share it first looks for an unpaired half member of the committee
(`allMembers.find(m => m.shareType === 'Half' && !m.pairId)`, where
`allMembers` is the committee's member list), persists the new member, and if
a waiting member exists creates the pair and sets both `pairId`s via `put`. -/
def memberFormSubmit (db : DB) (cid : Nat) (nm ph : String) (st : ShareType) : DB :=
  if st = ShareType.Half then
    match (membersOf db cid).find?
        (fun m => decide (m.shareType = ShareType.Half) && m.pairId.isNone) with
    | none =>
      { db with
        members := db.members ++ [⟨db.nextMemberId, cid, nm, ph, ShareType.Half, none⟩],
        nextMemberId := db.nextMemberId + 1 }
    | some w =>
      let mid := db.nextMemberId
      let pid := db.nextPairId
      { db with
        members :=
          ((db.members ++ ([⟨mid, cid, nm, ph, ShareType.Half, none⟩] : List Member)).map
              (fun x => if x.id = w.id then { w with pairId := some pid } else x)).map
            (fun x => if x.id = mid then ⟨mid, cid, nm, ph, ShareType.Half, some pid⟩ else x),
        pairs := db.pairs ++ [⟨pid, cid, w.id, mid, w.name ++ " & " ++ nm⟩],
        nextMemberId := mid + 1,
        nextPairId := pid + 1 }
  else
    { db with
      members := db.members ++ [⟨db.nextMemberId, cid, nm, ph, st, none⟩],
      nextMemberId := db.nextMemberId + 1 }

/-- The cell predicate of `getPaymentForCell` in `App.tsx`:
`p.payerId === shareholderId && p.payerType === shareholderType && p.month === month`. -/
def samePayerCell (payerId : Nat) (ptype : PayerType) (month : Nat) (q : Payment) : Bool :=
  q.payerId == payerId && decide (q.payerType = ptype) && q.month == month

/-- The `handleSavePayment` flow of `App.tsx` together with
`getPaymentForCell`: look up the existing payment row of the
(payer, type, month) cell among the committee's payments, compute the status
from the due date, and either `put` the updated row or `add` a fresh one. -/
def recordPayment (db : DB) (c : Committee) (payerId : Nat) (ptype : PayerType)
    (month : Nat) (paidOn : CalDate) : DB :=
  let status := paymentStatusOf c.startDate month paidOn
  match (paymentsOf db c.id).find? (samePayerCell payerId ptype month) with
  | some p =>
    { db with
      payments := db.payments.map
        (fun q => if q.id = p.id then { p with status := status, paidOn := some paidOn } else q) }
  | none =>
    { db with
      payments := db.payments ++
        [⟨db.nextPaymentId, c.id, payerId, ptype, month, status, some paidOn⟩],
      nextPaymentId := db.nextPaymentId + 1 }

/-- The `CommitteeForm.handleSubmit` edit path of `App.tsx`.  The submit is
rejected on an empty name or nonpositive contribution; otherwise the
committee record is replaced.  The `allowHalfShare` checkbox is disabled when
editing and its state is initialised from the edited committee, so the value
written back is the stored one: the field is carried over unchanged. -/
def editCommitteeSubmit (db : DB) (c : Committee) (nm : String) (contrib : Int)
    (sd : CalDate) : DB :=
  if nm = "" ∨ contrib ≤ 0 then db
  else
    { db with
      committees := db.committees.map
        (fun x => if x.id = c.id then
            { c with name := nm, contribution := contrib, startDate := sd }
          else x) }

/-- The `dbService.deleteMember` transaction of the database service: reject
when the member is missing or paired, otherwise delete the member and every
payment keyed to `(id, 'member')` via the `payer` index. -/
def deleteMember (db : DB) (mid : Nat) : Except DbError DB :=
  match db.members.find? (fun m => m.id == mid) with
  | none => Except.error DbError.notFound
  | some m =>
    if m.pairId.isSome then Except.error DbError.conflict
    else
      Except.ok
        { db with
          members := db.members.filter (fun x => x.id != mid),
          payments := db.payments.filter
            (fun p => !(p.payerId == mid && decide (p.payerType = PayerType.member))) }

/-- Run `deleteMember` as the caller observes it: a rejected transaction is
aborted, leaving the store in its prior state, and surfaces the error. -/
def runDeleteMember (db : DB) (mid : Nat) : DB × Option DbError :=
  match deleteMember db mid with
  | Except.ok db2 => (db2, none)
  | Except.error e => (db, some e)

/-- The `dbService.deletePair` transaction of the database service: reject
when the pair is missing, otherwise delete both referenced members, the pair,
and every payment keyed to `(pairId, 'pair')` via the `payer` index. -/
def deletePair (db : DB) (pid : Nat) : Except DbError DB :=
  match db.pairs.find? (fun q => q.id == pid) with
  | none => Except.error DbError.notFound
  | some p =>
    Except.ok
      { db with
        members := db.members.filter
          (fun m => m.id != p.member1Id && m.id != p.member2Id),
        pairs := db.pairs.filter (fun q => q.id != pid),
        payments := db.payments.filter
          (fun pay => !(pay.payerId == pid && decide (pay.payerType = PayerType.pair))) }

/-- `canConductDraw` of `DrawManager` in `App.tsx`: requires a nonempty
shareholder list, a count of Paid-or-Late payments of the committee for the
month equal to the shareholder count, and no draw for the month. -/
def canConductDraw (db : DB) (cid month : Nat) : Bool :=
  let total := (shareholdersOf db cid).length
  if total == 0 then false
  else
    let paymentsForMonth :=
      ((paymentsOf db cid).filter
          (fun p => p.month == month &&
            (decide (p.status = PaymentStatus.Paid) || decide (p.status = PaymentStatus.Late)))).length
    let hasDraw := (drawsOf db cid).any (fun d => d.month == month)
    paymentsForMonth == total && !hasDraw

/-- `eligibleForDraw` of `DrawManager` in `App.tsx`: shareholders minus the
winners of draws of months other than the selected one. -/
def eligibleForDraw (db : DB) (cid month : Nat) : List Shareholder :=
  let others := (drawsOf db cid).filter (fun d => d.month != month)
  (shareholdersOf db cid).filter
    (fun sh => !(others.any (fun d => d.winnerId == sh.id && decide (d.winnerType = sh.type))))

/-- The claim's reading of full collection: every current shareholder of the
committee has a Paid-or-Late payment row for the month. -/
def everyShareholderPaid (db : DB) (cid month : Nat) : Prop :=
  ∀ sh ∈ shareholdersOf db cid, ∃ p ∈ paymentsOf db cid,
    p.payerId = sh.id ∧ p.payerType = sh.type ∧ p.month = month ∧
      (p.status = PaymentStatus.Paid ∨ p.status = PaymentStatus.Late)

/-- No draw of the committee exists for the month. -/
def noDrawFor (db : DB) (cid month : Nat) : Prop :=
  ∀ d ∈ drawsOf db cid, d.month ≠ month

instance (db : DB) (cid month : Nat) : Decidable (everyShareholderPaid db cid month) := by
  unfold everyShareholderPaid
  infer_instance

instance (db : DB) (cid month : Nat) : Decidable (noDrawFor db cid month) := by
  unfold noDrawFor
  infer_instance

/-- The state after a successful pair deletion, from the body of
`dbService.deletePair`: both referenced members, the pair, and every payment
keyed to `(pair.id, 'pair')` are removed. -/
def cascadeResult (db : DB) (p : Pair) : DB :=
  { db with
    members := db.members.filter (fun m => m.id != p.member1Id && m.id != p.member2Id),
    pairs := db.pairs.filter (fun q => q.id != p.id),
    payments := db.payments.filter
      (fun pay => !(pay.payerId == p.id && decide (pay.payerType = PayerType.pair))) }

/-- The state after a successful member deletion, from the body of
`dbService.deleteMember`: the member and every payment keyed to
`(memberId, 'member')` are removed. -/
def memberDeleteResult (db : DB) (mid : Nat) : DB :=
  { db with
    members := db.members.filter (fun x => x.id != mid),
    payments := db.payments.filter
      (fun p => !(p.payerId == mid && decide (p.payerType = PayerType.member))) }

/-- Example committee with id 1 starting January 2024, half shares allowed. -/
def comA : Committee := ⟨1, "Alpha", 100, ⟨2024, 0, 1⟩, true⟩

/-- Second example committee with id 2, full shares only. -/
def comB : Committee := ⟨2, "Beta", 50, ⟨2024, 0, 1⟩, false⟩

/-- State holding only committee 1: no members, pairs, payments or draws. -/
def dbEmptyCommittee : DB := ⟨[comA], [], [], [], [], 1, 1, 1⟩

/-- State with one full-share member of committee 1 and one Paid payment for
month 0 whose payer id references no shareholder of the committee. -/
def dbMismatch : DB :=
  ⟨[comA], [⟨1, 1, "Ann", "", ShareType.Full, none⟩], [],
    [⟨1, 1, 2, PayerType.member, 0, PaymentStatus.Paid, some ⟨2024, 0, 5⟩⟩], [], 2, 1, 2⟩

/-- State with a single waiting half-share member of committee 1. -/
def dbWaitingHalf : DB :=
  ⟨[comA], [⟨1, 1, "Ann", "", ShareType.Half, none⟩], [], [], [], 2, 1, 1⟩

/-- State with a pair of two half-share members and a full member in
committee 1, two payments keyed to the pair, one payment keyed to the full
member, and a second committee with its own member and payment. -/
def dbPairCascade : DB :=
  ⟨[comA, comB],
    [⟨1, 1, "Ann", "", ShareType.Half, some 1⟩, ⟨2, 1, "Bea", "", ShareType.Half, some 1⟩,
      ⟨3, 1, "Cal", "", ShareType.Full, none⟩, ⟨4, 2, "Dan", "", ShareType.Full, none⟩],
    [⟨1, 1, 1, 2, "Ann & Bea"⟩],
    [⟨1, 1, 1, PayerType.pair, 0, PaymentStatus.Paid, some ⟨2024, 0, 5⟩⟩,
      ⟨2, 1, 1, PayerType.pair, 1, PaymentStatus.Late, some ⟨2024, 1, 20⟩⟩,
      ⟨3, 1, 3, PayerType.member, 0, PaymentStatus.Paid, some ⟨2024, 0, 6⟩⟩,
      ⟨4, 2, 4, PayerType.member, 0, PaymentStatus.Paid, some ⟨2024, 0, 7⟩⟩],
    [], 5, 2, 5⟩

/-- State with two full-share members of committee 1 and draws for months 0
and 1 won by members 1 and 2 respectively. -/
def dbDrawWinner : DB :=
  ⟨[comA],
    [⟨1, 1, "Wyn", "", ShareType.Full, none⟩, ⟨2, 1, "Xia", "", ShareType.Full, none⟩],
    [],
    [],
    [⟨1, 1, 0, 1, PayerType.member, ⟨2024, 0, 15⟩⟩, ⟨2, 1, 1, 2, PayerType.member, ⟨2024, 1, 15⟩⟩],
    3, 1, 1⟩

/-- State with one full-share member of committee 1 and one existing payment
row of that member for month 0. -/
def dbOnePayment : DB :=
  ⟨[comA], [⟨1, 1, "Ann", "", ShareType.Full, none⟩], [],
    [⟨1, 1, 1, PayerType.member, 0, PaymentStatus.Paid, some ⟨2024, 0, 5⟩⟩], [], 2, 1, 2⟩

/-- A list search returns the designated element when it matches and every
matching element of the list is that element. -/
theorem find_first_of_unique {α : Type} (p : α → Bool) (w : α) :
    ∀ l : List α, w ∈ l → p w = true → (∀ x ∈ l, p x = true → x = w) →
      l.find? p = some w := by
  intro l
  induction l with
  | nil => intro h; cases h
  | cons a t ih =>
    intro hmem hpw huniq
    by_cases hpa : p a = true
    · have ha : a = w := huniq a (List.mem_cons_self a t) hpa
      subst ha
      exact List.find?_cons_of_pos t hpa
    · rw [List.find?_cons_of_neg t hpa]
      have hwt : w ∈ t := by
        rcases List.mem_cons.mp hmem with rfl | h
        · exact absurd hpw hpa
        · exact h
      exact ih hwt hpw (fun x hx hpx => huniq x (List.mem_cons_of_mem a hx) hpx)

/-- In a list whose keys are pairwise distinct, two elements with the same
key are equal. -/
theorem eq_of_nodup_keys {α : Type} (key : α → Nat) :
    ∀ l : List α, (l.map key).Nodup → ∀ a ∈ l, ∀ b ∈ l, key a = key b → a = b := by
  intro l
  induction l with
  | nil => intro _ a ha; cases ha
  | cons x t ih =>
    intro hnd a ha b hb hk
    rw [List.map_cons, List.nodup_cons] at hnd
    rcases List.mem_cons.mp ha with rfl | hat
    · rcases List.mem_cons.mp hb with rfl | hbt
      · rfl
      · have : key a ∈ t.map key := by
          rw [hk]
          exact List.mem_map_of_mem key hbt
        exact absurd this hnd.1
    · rcases List.mem_cons.mp hb with rfl | hbt
      · have : key b ∈ t.map key := by
          rw [← hk]
          exact List.mem_map_of_mem key hat
        exact absurd this hnd.1
      · exact ih hnd.2 a hat b hbt hk

/-- Removing the unique element carrying key `k` from a nodup-keyed list
shortens it by exactly one. -/
theorem length_filter_key_ne {α : Type} (key : α → Nat) (k : Nat) :
    ∀ l : List α, (l.map key).Nodup → (∃ x ∈ l, key x = k) →
      (l.filter (fun x => key x != k)).length + 1 = l.length := by
  intro l
  induction l with
  | nil => rintro _ ⟨x, hx, _⟩; cases hx
  | cons a t ih =>
    intro hnd hex
    rw [List.map_cons, List.nodup_cons] at hnd
    by_cases hak : key a = k
    · rw [List.filter_cons_of_neg (by simp [hak])]
      have hall : ∀ x ∈ t, (key x != k) = true := by
        intro x hx
        simp only [bne_iff_ne, ne_eq]
        intro hxk
        apply hnd.1
        rw [← hak] at hxk
        rw [← hxk]
        exact List.mem_map_of_mem key hx
      rw [List.filter_eq_self.mpr hall]
      simp
    · have hex2 : ∃ x ∈ t, key x = k := by
        rcases hex with ⟨x, hx, hxk⟩
        rcases List.mem_cons.mp hx with rfl | hxt
        · exact absurd hxk hak
        · exact ⟨x, hxt, hxk⟩
      rw [List.filter_cons_of_pos (by simp [hak])]
      have := ih hnd.2 hex2
      simp only [List.length_cons]
      omega

/-- A conjunction filter is the composition of the two filters. -/
theorem filter_and_split {α : Type} (p q : α → Bool) :
    ∀ l : List α, l.filter (fun x => p x && q x) = (l.filter p).filter q := by
  intro l
  induction l with
  | nil => rfl
  | cons a t ih =>
    cases hp : p a <;> cases hq : q a <;>
      simp [List.filter_cons, hp, hq, ih]

/-- Replacing, in a nodup-keyed list, the record at the key of the unique
tuple-matching element `p` by a tuple-matching record `p2` leaves `p2` as the
only tuple-matching element. -/
theorem filter_map_replace {α : Type} (key : α → Nat) (tup : α → Bool) (p p2 : α) :
    ∀ l : List α, (l.map key).Nodup → p ∈ l → key p2 = key p → tup p2 = true →
      (∀ q ∈ l, tup q = true → q = p) →
      (l.map (fun q => if key q = key p then p2 else q)).filter tup = [p2] := by
  intro l
  induction l with
  | nil => intro _ hp; cases hp
  | cons a t ih =>
    intro hnd hp hkey htup huniq
    rw [List.map_cons, List.nodup_cons] at hnd
    by_cases hak : key a = key p
    · rw [List.map_cons] at *
      rw [if_pos hak, List.filter_cons_of_pos htup]
      have hnil : (t.map (fun q => if key q = key p then p2 else q)).filter tup = [] := by
        rw [List.filter_eq_nil_iff]
        intro x hx
        rcases List.mem_map.mp hx with ⟨y, hy, rfl⟩
        have hyk : ¬ (key y = key p) := by
          intro h
          apply hnd.1
          rw [← hak] at h
          rw [← h]
          exact List.mem_map_of_mem key hy
        rw [if_neg hyk]
        intro hty
        have hyp : y = p := huniq y (List.mem_cons_of_mem a hy) hty
        exact hyk (by rw [hyp])
      rw [hnil]
    · have hpt : p ∈ t := by
        rcases List.mem_cons.mp hp with rfl | h
        · exact absurd rfl hak
        · exact h
      rw [List.map_cons, if_neg hak, List.filter_cons_of_neg]
      · exact ih hnd.2 hpt hkey htup (fun q hq ht => huniq q (List.mem_cons_of_mem a hq) ht)
      · intro hta
        have hap : a = p := huniq a (List.mem_cons_self a t) hta
        exact hak (by rw [hap])

/-- Filtering after a map that does not change the filter verdict of any list
element keeps the filtered length. -/
theorem length_filter_map_congr {α : Type} (P : α → Bool) (h : α → α) :
    ∀ l : List α, (∀ y ∈ l, P (h y) = P y) →
      ((l.map h).filter P).length = (l.filter P).length := by
  intro l
  induction l with
  | nil => intro _; rfl
  | cons a t ih =>
    intro hp
    have ht : ((t.map h).filter P).length = (t.filter P).length :=
      ih (fun y hy => hp y (List.mem_cons_of_mem a hy))
    rw [List.map_cons]
    cases hpa : P a
    · rw [List.filter_cons_of_neg (by rw [hp a (List.mem_cons_self a t), hpa]; exact Bool.false_ne_true),
        List.filter_cons_of_neg (by rw [hpa]; exact Bool.false_ne_true)]
      exact ht
    · rw [List.filter_cons_of_pos (by rw [hp a (List.mem_cons_self a t)]; exact hpa),
        List.filter_cons_of_pos hpa]
      simp [ht]

/-- The qualifying-payment predicate of `canConductDraw`, as a Boolean
filter, agrees with the spec-level proposition. -/
theorem qual_pred_eq (month : Nat) :
    (fun p : Payment => p.month == month &&
        (decide (p.status = PaymentStatus.Paid) || decide (p.status = PaymentStatus.Late))) =
      (fun p : Payment => decide (p.month = month ∧
        (p.status = PaymentStatus.Paid ∨ p.status = PaymentStatus.Late))) := by
  funext p
  by_cases h1 : p.month = month <;> by_cases h2 : p.status = PaymentStatus.Paid <;>
    by_cases h3 : p.status = PaymentStatus.Late <;> simp [h1, h2, h3]

/-- C1 (counterexample).  `canConductDraw` is not equivalent to "every
current shareholder has a Paid-or-Late payment for the month and no draw
exists".  With no shareholders at all the right side holds vacuously but the
function returns `false`; with one shareholder and a qualifying payment whose
payer is not a shareholder the function returns `true` although the
shareholder has no payment row. -/
theorem c1_counterexample :
    (¬ (canConductDraw dbEmptyCommittee 1 0 = true ↔
        (everyShareholderPaid dbEmptyCommittee 1 0 ∧ noDrawFor dbEmptyCommittee 1 0))) ∧
      (¬ (canConductDraw dbMismatch 1 0 = true ↔
        (everyShareholderPaid dbMismatch 1 0 ∧ noDrawFor dbMismatch 1 0))) := by
  constructor
  · decide
  · decide

/-- C1 (amended).  `canConductDraw(m)` returns true if and only if the
committee has at least one shareholder, the count of the committee's
payments for month `m` with status Paid or Late equals the shareholder
count, and no draw yet exists for month `m`. -/
theorem c1_can_conduct_draw_characterization (db : DB) (cid month : Nat) :
    canConductDraw db cid month = true ↔
      ((shareholdersOf db cid).length ≠ 0 ∧
        (paymentsOf db cid).countP
            (fun p => decide (p.month = month ∧
              (p.status = PaymentStatus.Paid ∨ p.status = PaymentStatus.Late))) =
          (shareholdersOf db cid).length ∧
        noDrawFor db cid month) := by
  unfold canConductDraw noDrawFor
  rw [List.countP_eq_length_filter, ← qual_pred_eq]
  by_cases h0 : (shareholdersOf db cid).length = 0
  · simp [h0]
  · rw [if_neg (by simpa using h0)]
    simp only [Bool.and_eq_true, beq_iff_eq, Bool.not_eq_true', List.any_eq_false,
      ne_eq, h0, not_false_iff, true_and]

/-- C10.  `canConductDraw` decides eligibility from the count of the
committee's Paid-or-Late payment rows of the month alone: whenever at least
one shareholder exists, no draw exists for the month, and that count equals
the shareholder count, it returns true — no per-shareholder payment check is
involved. -/
theorem c10_count_only_draw (db : DB) (cid month : Nat)
    (h1 : (shareholdersOf db cid).length ≠ 0)
    (h2 : noDrawFor db cid month)
    (h3 : (paymentsOf db cid).countP
        (fun p => decide (p.month = month ∧
          (p.status = PaymentStatus.Paid ∨ p.status = PaymentStatus.Late))) =
      (shareholdersOf db cid).length) :
    canConductDraw db cid month = true := by
  unfold canConductDraw
  rw [if_neg (by simpa using h1)]
  rw [List.countP_eq_length_filter, ← qual_pred_eq] at h3
  simp only [Bool.and_eq_true, beq_iff_eq, Bool.not_eq_true', List.any_eq_false]
  refine ⟨h3, fun d hd => ?_⟩
  simpa using h2 d hd

/-- C10 (witness).  In `dbMismatch` the unique shareholder has no payment
row at all, yet a stray qualifying payment makes the count match and the
draw is allowed. -/
theorem c10_count_only_draw_witness :
    (¬ everyShareholderPaid dbMismatch 1 0) ∧ canConductDraw dbMismatch 1 0 = true :=
  ⟨by decide, c10_count_only_draw dbMismatch 1 0 (by decide) (by decide) (by decide)⟩

/-- C2.  The due date of month `i` is day 10 of calendar month
(start-month + i); a recorded payment gets status Late exactly when its date
is strictly after the due date and Paid otherwise.  In particular, for start
2024-01-01 and month 0, a payment dated 2024-01-10 is stored as Paid and one
dated 2024-01-11 as Late. -/
theorem c2_payment_status :
    (∀ start : CalDate, ∀ i : Nat, dueDate start i = specDueDate start i) ∧
    (∀ (start : CalDate) (i : Nat) (D : CalDate),
      (paymentStatusOf start i D = PaymentStatus.Late ↔ specAfter D (specDueDate start i)) ∧
      (paymentStatusOf start i D = PaymentStatus.Paid ↔ ¬ specAfter D (specDueDate start i))) ∧
    (recordPayment dbEmptyCommittee comA 1 PayerType.member 0 ⟨2024, 0, 10⟩).payments =
      [⟨1, 1, 1, PayerType.member, 0, PaymentStatus.Paid, some ⟨2024, 0, 10⟩⟩] ∧
    (recordPayment dbEmptyCommittee comA 1 PayerType.member 0 ⟨2024, 0, 11⟩).payments =
      [⟨1, 1, 1, PayerType.member, 0, PaymentStatus.Late, some ⟨2024, 0, 11⟩⟩] := by
  refine ⟨fun start i => rfl, fun start i D => ?_, by decide, by decide⟩
  unfold paymentStatusOf
  by_cases h : specAfter D (specDueDate start i)
  · have hb : dateLt (dueDate start i) D = true := decide_eq_true h
    rw [hb]
    simp [h]
  · have hb : dateLt (dueDate start i) D = false := decide_eq_false h
    rw [hb]
    simp [h]

/-- C6.  The derived duration is the count of the committee's full-share
members plus the count of its pairs: the dashboard computation and the
committee-detail computation agree, the duration equals the shareholder
count, and an empty committee has duration 0. -/
theorem c6_duration_counts :
    (∀ db : DB, ∀ cid : Nat, dashboardDuration db cid = effectiveDuration db cid) ∧
    (∀ db : DB, ∀ cid : Nat, effectiveDuration db cid = (shareholdersOf db cid).length) ∧
    effectiveDuration dbEmptyCommittee 1 = 0 := by
  refine ⟨fun db cid => ?_, fun db cid => ?_, by decide⟩
  · unfold dashboardDuration effectiveDuration membersOf pairsOf
    rw [filter_and_split]
  · unfold effectiveDuration shareholdersOf
    rw [List.length_append, List.length_map, List.length_map]

/-- C7.  A shareholder is eligible for winner selection in month `m` exactly
when it has won no draw of the committee in a month different from `m`;
consequently the winner of month `m`'s own draw (who has won nowhere else)
stays in the eligible set when that draw is edited. -/
theorem c7_draw_eligibility (db : DB) (cid month : Nat) (sh : Shareholder) :
    (sh ∈ eligibleForDraw db cid month ↔
      (sh ∈ shareholdersOf db cid ∧
        ¬ ∃ d ∈ drawsOf db cid, d.month ≠ month ∧ d.winnerId = sh.id ∧
          d.winnerType = sh.type)) ∧
    (sh ∈ shareholdersOf db cid →
      (∀ d ∈ drawsOf db cid, d.winnerId = sh.id → d.winnerType = sh.type → d.month = month) →
      sh ∈ eligibleForDraw db cid month) := by
  have hiff : sh ∈ eligibleForDraw db cid month ↔
      (sh ∈ shareholdersOf db cid ∧
        ¬ ∃ d ∈ drawsOf db cid, d.month ≠ month ∧ d.winnerId = sh.id ∧
          d.winnerType = sh.type) := by
    unfold eligibleForDraw
    rw [List.mem_filter]
    constructor
    · rintro ⟨hsh, hb⟩
      refine ⟨hsh, ?_⟩
      rintro ⟨d, hd, hdm, hwid, hwt⟩
      rw [Bool.not_eq_true', List.any_eq_false] at hb
      have hdo : d ∈ (drawsOf db cid).filter (fun d2 => d2.month != month) :=
        List.mem_filter.mpr ⟨hd, by simp [bne_iff_ne, hdm]⟩
      have hq := hb d hdo
      simp [hwid, hwt] at hq
    · rintro ⟨hsh, hno⟩
      refine ⟨hsh, ?_⟩
      rw [Bool.not_eq_true', List.any_eq_false]
      intro d hdo
      rcases List.mem_filter.mp hdo with ⟨hd, hdm⟩
      rw [bne_iff_ne] at hdm
      by_cases hwid : d.winnerId = sh.id
      · by_cases hwt : d.winnerType = sh.type
        · exact absurd ⟨d, hd, hdm, hwid, hwt⟩ hno
        · simp [hwt]
      · simp [hwid]
  refine ⟨hiff, fun hsh hall => hiff.mpr ⟨hsh, ?_⟩⟩
  rintro ⟨d, hd, hne, hwid, hwt⟩
  exact hne (hall d hd hwid hwt)

/-- C7 (witness).  In `dbDrawWinner` member 1 won the month-0 draw and no
other; when re-editing month 0 it is still eligible. -/
theorem c7_draw_eligibility_witness :
    (⟨1, PayerType.member, "Wyn"⟩ : Shareholder) ∈ eligibleForDraw dbDrawWinner 1 0 :=
  (c7_draw_eligibility dbDrawWinner 1 0 ⟨1, PayerType.member, "Wyn"⟩).2 (by decide) (by decide)

/-- C5.  `deleteMember` fails with `NotFoundError` when no member carries
the id, fails with `ConflictError` when the member is paired — in both cases
the transaction aborts and the observable store is the prior one — and
otherwise removes exactly the member and every payment keyed to
`(id, 'member')`, leaving pairs, draws and committees untouched. -/
theorem c5_delete_member_errors (db : DB) (mid : Nat) :
    ((∀ m ∈ db.members, m.id ≠ mid) →
      runDeleteMember db mid = (db, some DbError.notFound)) ∧
    (∀ m ∈ db.members, m.id = mid → (db.members.map Member.id).Nodup →
      (m.pairId.isSome → runDeleteMember db mid = (db, some DbError.conflict)) ∧
      (m.pairId = none →
        runDeleteMember db mid = (memberDeleteResult db mid, none) ∧
        (∀ x : Member, x ∈ (memberDeleteResult db mid).members ↔
          (x ∈ db.members ∧ x.id ≠ mid)) ∧
        (∀ pay : Payment, pay ∈ (memberDeleteResult db mid).payments ↔
          (pay ∈ db.payments ∧ ¬(pay.payerId = mid ∧ pay.payerType = PayerType.member))) ∧
        (memberDeleteResult db mid).pairs = db.pairs ∧
        (memberDeleteResult db mid).draws = db.draws ∧
        (memberDeleteResult db mid).committees = db.committees)) := by
  constructor
  · intro hall
    have hfind : db.members.find? (fun m => m.id == mid) = none := by
      rw [List.find?_eq_none]
      intro x hx
      simp [hall x hx]
    unfold runDeleteMember deleteMember
    rw [hfind]
  · intro m hm hid hnd
    have hfind : db.members.find? (fun m2 => m2.id == mid) = some m := by
      apply find_first_of_unique _ _ _ hm (by simp [hid])
      intro x hx hpx
      have hxid : x.id = mid := by simpa using hpx
      exact eq_of_nodup_keys Member.id db.members hnd x hx m hm (by rw [hxid, hid])
    constructor
    · intro hps
      have hdel : deleteMember db mid = Except.error DbError.conflict := by
        simp only [deleteMember, hfind]
        rw [if_pos hps]
      unfold runDeleteMember
      rw [hdel]
    · intro hpn
      have hdel : deleteMember db mid = Except.ok (memberDeleteResult db mid) := by
        simp only [deleteMember, hfind]
        rw [if_neg (by simp [hpn])]
        rfl
      refine ⟨?_, ?_, ?_, rfl, rfl, rfl⟩
      · unfold runDeleteMember
        rw [hdel]
      · intro x
        unfold memberDeleteResult
        simp [List.mem_filter]
      · intro pay
        unfold memberDeleteResult
        simp only [List.mem_filter, Bool.not_eq_true', Bool.and_eq_false_iff,
          beq_eq_false_iff_ne, ne_eq, decide_eq_false_iff_not]
        constructor
        · rintro ⟨hmem, hor⟩
          refine ⟨hmem, ?_⟩
          rintro ⟨h1, h2⟩
          rcases hor with h | h
          · exact h h1
          · exact h h2
        · rintro ⟨hmem, hno⟩
          refine ⟨hmem, ?_⟩
          by_cases h1 : pay.payerId = mid
          · by_cases h2 : pay.payerType = PayerType.member
            · exact absurd ⟨h1, h2⟩ hno
            · exact Or.inr h2
          · exact Or.inl h1

/-- C5 (witness).  In `dbPairCascade`, deleting the paired member 1 is
rejected with a conflict and deleting the unpaired member 3 removes exactly
member 3 and its payment while keeping the pair store intact. -/
theorem c5_delete_member_errors_witness :
    runDeleteMember dbPairCascade 1 = (dbPairCascade, some DbError.conflict) ∧
    runDeleteMember dbPairCascade 3 = (memberDeleteResult dbPairCascade 3, none) ∧
    (memberDeleteResult dbPairCascade 3).pairs = dbPairCascade.pairs := by
  refine ⟨?_, ?_, ?_⟩
  · exact ((c5_delete_member_errors dbPairCascade 1).2
      ⟨1, 1, "Ann", "", ShareType.Half, some 1⟩ (by decide) (by decide) (by decide)).1
      (by decide)
  · exact (((c5_delete_member_errors dbPairCascade 3).2
      ⟨3, 1, "Cal", "", ShareType.Full, none⟩ (by decide) (by decide) (by decide)).2
      (by decide)).1
  · exact (((c5_delete_member_errors dbPairCascade 3).2
      ⟨3, 1, "Cal", "", ShareType.Full, none⟩ (by decide) (by decide) (by decide)).2
      (by decide)).2.2.2.1

/-- C4.  `deletePair` fails with `NotFoundError` when the pair is missing;
otherwise it removes exactly the two referenced members, the pair itself and
every payment keyed to `(pairId, 'pair')`, leaving member-keyed payments,
draws and committees untouched, so the store shrinks by exactly two members
and one pair. -/
theorem c4_delete_pair_cascade (db : DB) (pid : Nat) :
    ((∀ q ∈ db.pairs, q.id ≠ pid) → deletePair db pid = Except.error DbError.notFound) ∧
    (∀ p ∈ db.pairs, p.id = pid →
      (db.pairs.map Pair.id).Nodup → (db.members.map Member.id).Nodup →
      (∃ m1 ∈ db.members, m1.id = p.member1Id) →
      (∃ m2 ∈ db.members, m2.id = p.member2Id) →
      p.member1Id ≠ p.member2Id →
      deletePair db pid = Except.ok (cascadeResult db p) ∧
      (∀ m : Member, m ∈ (cascadeResult db p).members ↔
        (m ∈ db.members ∧ m.id ≠ p.member1Id ∧ m.id ≠ p.member2Id)) ∧
      (∀ q : Pair, q ∈ (cascadeResult db p).pairs ↔ (q ∈ db.pairs ∧ q.id ≠ pid)) ∧
      (∀ pay : Payment, pay ∈ (cascadeResult db p).payments ↔
        (pay ∈ db.payments ∧ ¬(pay.payerId = pid ∧ pay.payerType = PayerType.pair))) ∧
      (∀ pay ∈ db.payments, pay.payerType = PayerType.member →
        pay ∈ (cascadeResult db p).payments) ∧
      (cascadeResult db p).draws = db.draws ∧
      (cascadeResult db p).committees = db.committees ∧
      (cascadeResult db p).members.length + 2 = db.members.length ∧
      (cascadeResult db p).pairs.length + 1 = db.pairs.length) := by
  constructor
  · intro hall
    have hfind : db.pairs.find? (fun q => q.id == pid) = none := by
      rw [List.find?_eq_none]
      intro x hx
      simp [hall x hx]
    unfold deletePair
    rw [hfind]
  · intro p hp hpid hndP hndM hm1 hm2 hne
    subst hpid
    have hfind : db.pairs.find? (fun q => q.id == p.id) = some p := by
      apply find_first_of_unique _ _ _ hp (by simp)
      intro x hx hpx
      have hxid : x.id = p.id := by simpa using hpx
      exact eq_of_nodup_keys Pair.id db.pairs hndP x hx p hp hxid
    have hpay : ∀ pay : Payment, pay ∈ (cascadeResult db p).payments ↔
        (pay ∈ db.payments ∧ ¬(pay.payerId = p.id ∧ pay.payerType = PayerType.pair)) := by
      intro pay
      unfold cascadeResult
      simp only [List.mem_filter, Bool.not_eq_true', Bool.and_eq_false_iff,
        beq_eq_false_iff_ne, ne_eq, decide_eq_false_iff_not]
      constructor
      · rintro ⟨hmem, hor⟩
        refine ⟨hmem, ?_⟩
        rintro ⟨h1, h2⟩
        rcases hor with h | h
        · exact h h1
        · exact h h2
      · rintro ⟨hmem, hno⟩
        refine ⟨hmem, ?_⟩
        by_cases h1 : pay.payerId = p.id
        · by_cases h2 : pay.payerType = PayerType.pair
          · exact absurd ⟨h1, h2⟩ hno
          · exact Or.inr h2
        · exact Or.inl h1
    have hmemlen : (cascadeResult db p).members.length + 2 = db.members.length := by
      rcases hm1 with ⟨m1, hm1mem, hm1id⟩
      rcases hm2 with ⟨m2, hm2mem, hm2id⟩
      show (db.members.filter
          (fun m => m.id != p.member1Id && m.id != p.member2Id)).length + 2 =
        db.members.length
      rw [filter_and_split]
      have hnd1 : ((db.members.filter (fun m => m.id != p.member1Id)).map Member.id).Nodup :=
        List.Nodup.sublist (List.Sublist.map Member.id (List.filter_sublist db.members)) hndM
      have h1 : ((db.members.filter (fun m => m.id != p.member1Id)).filter
            (fun m => m.id != p.member2Id)).length + 1 =
          (db.members.filter (fun m => m.id != p.member1Id)).length := by
        apply length_filter_key_ne Member.id p.member2Id _ hnd1
        refine ⟨m2, List.mem_filter.mpr ⟨hm2mem, ?_⟩, hm2id⟩
        rw [bne_iff_ne, hm2id]
        exact fun h => hne h.symm
      have h2 : (db.members.filter (fun m => m.id != p.member1Id)).length + 1 =
          db.members.length :=
        length_filter_key_ne Member.id p.member1Id _ hndM ⟨m1, hm1mem, hm1id⟩
      omega
    have hplen : (cascadeResult db p).pairs.length + 1 = db.pairs.length := by
      show (db.pairs.filter (fun q => q.id != p.id)).length + 1 = db.pairs.length
      exact length_filter_key_ne Pair.id p.id _ hndP ⟨p, hp, rfl⟩
    refine ⟨?_, ?_, ?_, hpay, ?_, rfl, rfl, hmemlen, hplen⟩
    · simp only [deletePair, hfind]
      rfl
    · intro m
      unfold cascadeResult
      simp [List.mem_filter, and_assoc]
    · intro q
      unfold cascadeResult
      simp [List.mem_filter]
    · intro pay hpmem hpt
      refine (hpay pay).mpr ⟨hpmem, ?_⟩
      rintro ⟨h1, h2⟩
      rw [hpt] at h2
      cases h2


/-- C4 (witness).  In `dbPairCascade`, deleting pair 1 removes members 1 and
2, the pair, and both pair-keyed payments, leaving two members, two
member-keyed payments and both committees. -/
theorem c4_delete_pair_cascade_witness :
    deletePair dbPairCascade 1 = Except.ok (cascadeResult dbPairCascade ⟨1, 1, 1, 2, "Ann & Bea"⟩) ∧
    (cascadeResult dbPairCascade ⟨1, 1, 1, 2, "Ann & Bea"⟩).members.length + 2 =
      dbPairCascade.members.length ∧
    (cascadeResult dbPairCascade ⟨1, 1, 1, 2, "Ann & Bea"⟩).pairs.length + 1 =
      dbPairCascade.pairs.length := by
  have h := (c4_delete_pair_cascade dbPairCascade 1).2 ⟨1, 1, 1, 2, "Ann & Bea"⟩
    (by decide) (by decide) (by decide) (by decide) (by decide) (by decide) (by decide)
  exact ⟨h.1, h.2.2.2.2.2.2.2.1, h.2.2.2.2.2.2.2.2⟩

/-- C8.  Recording a payment is idempotent per (payer, type, month): when a
row for the tuple already exists, the submission rewrites that row in place
with the freshly computed status and payment date, the total number of
payment rows is unchanged, and the store afterwards holds exactly one row
for the tuple — the updated one. -/
theorem c8_payment_idempotence (db : DB) (c : Committee) (p : Payment) (paidOn : CalDate)
    (hp : p ∈ db.payments) (hc : p.committeeId = c.id)
    (hnd : (db.payments.map Payment.id).Nodup)
    (huniq : ∀ q ∈ db.payments, q.payerId = p.payerId → q.payerType = p.payerType →
      q.month = p.month → q = p) :
    (recordPayment db c p.payerId p.payerType p.month paidOn).payments.length =
      db.payments.length ∧
    (recordPayment db c p.payerId p.payerType p.month paidOn).payments.filter
        (samePayerCell p.payerId p.payerType p.month) =
      [{ p with
          status := paymentStatusOf c.startDate p.month paidOn,
          paidOn := some paidOn }] := by
  have hfind : (paymentsOf db c.id).find? (samePayerCell p.payerId p.payerType p.month) =
      some p := by
    apply find_first_of_unique _ _ _ (List.mem_filter.mpr ⟨hp, by simp [hc]⟩)
      (by simp [samePayerCell])
    intro x hx hpx
    have hx2 : x ∈ db.payments := (List.mem_filter.mp hx).1
    have h3 : x.payerId = p.payerId ∧ x.payerType = p.payerType ∧ x.month = p.month := by
      simpa [samePayerCell, and_assoc] using hpx
    exact huniq x hx2 h3.1 h3.2.1 h3.2.2
  have hrec : recordPayment db c p.payerId p.payerType p.month paidOn =
      { db with
        payments := db.payments.map (fun q =>
          if q.id = p.id then
            { p with
              status := paymentStatusOf c.startDate p.month paidOn,
              paidOn := some paidOn }
          else q) } := by
    simp only [recordPayment, hfind]
  rw [hrec]
  constructor
  · exact List.length_map db.payments _
  · exact filter_map_replace Payment.id (samePayerCell p.payerId p.payerType p.month) p
      { p with status := paymentStatusOf c.startDate p.month paidOn, paidOn := some paidOn }
      db.payments hnd hp rfl (by simp [samePayerCell])
      (fun q hq ht => by
        have h3 : q.payerId = p.payerId ∧ q.payerType = p.payerType ∧ q.month = p.month := by
          simpa [samePayerCell, and_assoc] using ht
        exact huniq q hq h3.1 h3.2.1 h3.2.2)

/-- C8 (witness).  Re-recording the month-0 payment of member 1 in
`dbOnePayment` with date 2024-01-20 leaves a single row for the cell,
updated in place to Late. -/
theorem c8_payment_idempotence_witness :
    (recordPayment dbOnePayment comA 1 PayerType.member 0 ⟨2024, 0, 20⟩).payments.length =
      dbOnePayment.payments.length ∧
    (recordPayment dbOnePayment comA 1 PayerType.member 0 ⟨2024, 0, 20⟩).payments.filter
        (samePayerCell 1 PayerType.member 0) =
      [⟨1, 1, 1, PayerType.member, 0, PaymentStatus.Late, some ⟨2024, 0, 20⟩⟩] := by
  have h := c8_payment_idempotence dbOnePayment comA
    ⟨1, 1, 1, PayerType.member, 0, PaymentStatus.Paid, some ⟨2024, 0, 5⟩⟩ ⟨2024, 0, 20⟩
    (by decide) (by decide) (by decide) (by decide)
  exact ⟨h.1, h.2.trans (by decide)⟩

/-- C9.  `allowHalfShare` is immutable after creation: the committee edit
form carries the stored flag over unchanged (the checkbox is disabled while
editing), so after an edit every committee still carries the flag it had
before, and no other modelled operation touches the committee store at
all. -/
theorem c9_allow_half_share_immutable :
    (∀ (db : DB) (c : Committee) (nm : String) (contrib : Int) (sd : CalDate),
      c ∈ db.committees → (db.committees.map Committee.id).Nodup →
      ∀ c0 ∈ db.committees, ∀ c2 ∈ (editCommitteeSubmit db c nm contrib sd).committees,
        c2.id = c0.id → c2.allowHalfShare = c0.allowHalfShare) ∧
    (∀ (db : DB) (cid : Nat) (nm ph : String) (st : ShareType),
      (memberFormSubmit db cid nm ph st).committees = db.committees) ∧
    (∀ (db : DB) (c : Committee) (payer : Nat) (pt : PayerType) (month : Nat) (d : CalDate),
      (recordPayment db c payer pt month d).committees = db.committees) ∧
    (∀ (db : DB) (mid : Nat), (runDeleteMember db mid).1.committees = db.committees) ∧
    (∀ (db : DB) (pid : Nat) (db2 : DB), deletePair db pid = Except.ok db2 →
      db2.committees = db.committees) := by
  refine ⟨?_, ?_, ?_, ?_, ?_⟩
  · intro db c nm contrib sd hc hnd c0 hc0 c2 hc2 hid
    unfold editCommitteeSubmit at hc2
    by_cases hg : nm = "" ∨ contrib ≤ 0
    · rw [if_pos hg] at hc2
      rw [eq_of_nodup_keys Committee.id db.committees hnd c2 hc2 c0 hc0 hid]
    · rw [if_neg hg] at hc2
      rcases List.mem_map.mp hc2 with ⟨c3, hc3, heq⟩
      by_cases h3 : c3.id = c.id
      · rw [if_pos h3] at heq
        have hflag : c2.allowHalfShare = c.allowHalfShare := by rw [← heq]
        have hcid : c2.id = c.id := by rw [← heq]
        have hc0c : c0 = c :=
          eq_of_nodup_keys Committee.id db.committees hnd c0 hc0 c hc (by rw [← hid, hcid])
        rw [hflag, hc0c]
      · rw [if_neg h3] at heq
        rw [← heq] at hid ⊢
        rw [eq_of_nodup_keys Committee.id db.committees hnd c3 hc3 c0 hc0 hid]
  · intro db cid nm ph st
    unfold memberFormSubmit
    by_cases hst : st = ShareType.Half
    · rw [if_pos hst]
      cases hf : (membersOf db cid).find?
          (fun m => decide (m.shareType = ShareType.Half) && m.pairId.isNone) <;> rfl
    · rw [if_neg hst]
  · intro db c payer pt month d
    unfold recordPayment
    cases hf : (paymentsOf db c.id).find? (samePayerCell payer pt month) <;> rfl
  · intro db mid
    unfold runDeleteMember
    cases hf : db.members.find? (fun m => m.id == mid) with
    | none =>
      simp only [deleteMember, hf]
    | some m =>
      simp only [deleteMember, hf]
      cases hmp : m.pairId <;> rfl
  · intro db pid db2 h
    unfold deletePair at h
    cases hf : db.pairs.find? (fun q => q.id == pid) with
    | none =>
      rw [hf] at h
      cases h
    | some p =>
      rw [hf] at h
      cases h
      rfl

/-- C9 (witness).  Editing committee 1's name and start date leaves its
`allowHalfShare` flag as created. -/
theorem c9_allow_half_share_immutable_witness :
    (⟨1, "Gamma", 100, ⟨2024, 1, 1⟩, true⟩ : Committee).allowHalfShare = comA.allowHalfShare :=
  c9_allow_half_share_immutable.1 dbEmptyCommittee comA "Gamma" 100 ⟨2024, 1, 1⟩
    (by decide) (by decide) comA (by decide)
    ⟨1, "Gamma", 100, ⟨2024, 1, 1⟩, true⟩ (by decide) (by decide)

/-- C3.  Adding a half-share member M to a committee whose only half-share
member is the unpaired W creates exactly one new pair referencing W and M
with the concatenated display name, sets both members' `pairId` to the new
pair's id, and raises the committee's duration by exactly 1; when no
unpaired half-share member exists, M is persisted unpaired. -/
theorem c3_half_share_pairing :
    (∀ (db : DB) (cid : Nat) (nm ph : String) (w : Member),
      (db.members.map Member.id).Nodup →
      (∀ m ∈ db.members, m.id < db.nextMemberId) →
      w ∈ db.members → w.committeeId = cid → w.shareType = ShareType.Half →
      w.pairId = none →
      (∀ m ∈ db.members, m.committeeId = cid → m.shareType = ShareType.Half → m = w) →
      (memberFormSubmit db cid nm ph ShareType.Half).pairs =
        db.pairs ++ [⟨db.nextPairId, cid, w.id, db.nextMemberId, w.name ++ " & " ++ nm⟩] ∧
      ({ w with pairId := some db.nextPairId } : Member) ∈
        (memberFormSubmit db cid nm ph ShareType.Half).members ∧
      (⟨db.nextMemberId, cid, nm, ph, ShareType.Half, some db.nextPairId⟩ : Member) ∈
        (memberFormSubmit db cid nm ph ShareType.Half).members ∧
      (∀ x ∈ (memberFormSubmit db cid nm ph ShareType.Half).members,
        (x.id = w.id → x = { w with pairId := some db.nextPairId }) ∧
        (x.id = db.nextMemberId →
          x = ⟨db.nextMemberId, cid, nm, ph, ShareType.Half, some db.nextPairId⟩)) ∧
      effectiveDuration (memberFormSubmit db cid nm ph ShareType.Half) cid =
        effectiveDuration db cid + 1) ∧
    (∀ (db : DB) (cid : Nat) (nm ph : String),
      (∀ m ∈ membersOf db cid, ¬(m.shareType = ShareType.Half ∧ m.pairId = none)) →
      memberFormSubmit db cid nm ph ShareType.Half =
        { db with
          members := db.members ++ [⟨db.nextMemberId, cid, nm, ph, ShareType.Half, none⟩],
          nextMemberId := db.nextMemberId + 1 }) := by
  constructor
  · intro db cid nm ph w hnd hlt hw hwc hwh hwp honly
    have hwid_lt : w.id < db.nextMemberId := hlt w hw
    have hwm : w.id ≠ db.nextMemberId := by omega
    have hmw : db.nextMemberId ≠ w.id := by omega
    have hfind : (membersOf db cid).find?
        (fun m => decide (m.shareType = ShareType.Half) && m.pairId.isNone) = some w := by
      apply find_first_of_unique _ _ _
        (List.mem_filter.mpr ⟨hw, by simp [hwc]⟩) (by simp [hwh, hwp])
      intro x hx hpx
      rcases List.mem_filter.mp hx with ⟨hxmem, hxcid⟩
      have hxc : x.committeeId = cid := by simpa using hxcid
      have hxprops : x.shareType = ShareType.Half ∧ x.pairId = none := by
        simpa [Option.isNone_iff_eq_none] using hpx
      exact honly x hxmem hxc hxprops.1
    have hsubmit : memberFormSubmit db cid nm ph ShareType.Half =
        { db with
          members :=
            ((db.members ++
                ([⟨db.nextMemberId, cid, nm, ph, ShareType.Half, none⟩] : List Member)).map
                (fun x => if x.id = w.id then { w with pairId := some db.nextPairId } else x)).map
              (fun x => if x.id = db.nextMemberId then
                  ⟨db.nextMemberId, cid, nm, ph, ShareType.Half, some db.nextPairId⟩
                else x),
          pairs := db.pairs ++
            [⟨db.nextPairId, cid, w.id, db.nextMemberId, w.name ++ " & " ++ nm⟩],
          nextMemberId := db.nextMemberId + 1,
          nextPairId := db.nextPairId + 1 } := by
      simp only [memberFormSubmit, hfind]
      rw [if_pos trivial]
    have hmem_eq :
        (((db.members ++
            ([⟨db.nextMemberId, cid, nm, ph, ShareType.Half, none⟩] : List Member)).map
            (fun x => if x.id = w.id then { w with pairId := some db.nextPairId } else x)).map
          (fun x => if x.id = db.nextMemberId then
              ⟨db.nextMemberId, cid, nm, ph, ShareType.Half, some db.nextPairId⟩
            else x)) =
        (db.members.map
            (fun y => if y.id = w.id then { w with pairId := some db.nextPairId } else y)) ++
          [⟨db.nextMemberId, cid, nm, ph, ShareType.Half, some db.nextPairId⟩] := by
      rw [List.map_map, List.map_append]
      congr 1
      · apply List.map_congr_left
        intro y hy
        have hym : y.id ≠ db.nextMemberId := by
          have := hlt y hy
          omega
        by_cases hyw : y.id = w.id
        · simp only [Function.comp_apply, if_pos hyw]
          rw [if_neg (by simpa using hwm)]
        · simp only [Function.comp_apply, if_neg hyw, if_neg hym]
      · simp only [List.map_cons, List.map_nil, Function.comp_apply]
        simp [hmw]
    rw [hsubmit]
    have hchar : ∀ x ∈ (db.members.map
          (fun y => if y.id = w.id then { w with pairId := some db.nextPairId } else y)) ++
          [⟨db.nextMemberId, cid, nm, ph, ShareType.Half, some db.nextPairId⟩],
        (x.id = w.id → x = { w with pairId := some db.nextPairId }) ∧
        (x.id = db.nextMemberId →
          x = ⟨db.nextMemberId, cid, nm, ph, ShareType.Half, some db.nextPairId⟩) := by
      intro x hx
      rcases List.mem_append.mp hx with hx1 | hx2
      · rcases List.mem_map.mp hx1 with ⟨y, hy, hfy⟩
        have hylt : y.id < db.nextMemberId := hlt y hy
        by_cases hyw : y.id = w.id
        · rw [if_pos hyw] at hfy
          constructor
          · intro _
            exact hfy.symm
          · intro hxm
            rw [← hfy] at hxm
            exact absurd hxm hwm
        · rw [if_neg hyw] at hfy
          constructor
          · intro hxw
            rw [← hfy] at hxw
            exact absurd hxw hyw
          · intro hxm
            rw [← hfy] at hxm
            omega
      · rw [List.mem_singleton.mp hx2]
        constructor
        · intro hxw
          exact absurd hxw.symm hwm
        · intro _
          rfl
    refine ⟨rfl, ?_, ?_, ?_, ?_⟩
    · show _ ∈ (((db.members ++ _).map _).map _)
      rw [hmem_eq]
      apply List.mem_append_left
      have hx := List.mem_map_of_mem
        (fun y : Member =>
          if y.id = w.id then { w with pairId := some db.nextPairId } else y) hw
      simpa using hx
    · show _ ∈ (((db.members ++ _).map _).map _)
      rw [hmem_eq]
      apply List.mem_append_right
      exact List.mem_singleton.mpr rfl
    · intro x hx
      rw [hmem_eq] at hx
      exact hchar x hx
    · show effectiveDuration
        { db with
          members :=
            ((db.members ++
                ([⟨db.nextMemberId, cid, nm, ph, ShareType.Half, none⟩] : List Member)).map
                (fun x => if x.id = w.id then { w with pairId := some db.nextPairId } else x)).map
              (fun x => if x.id = db.nextMemberId then
                  ⟨db.nextMemberId, cid, nm, ph, ShareType.Half, some db.nextPairId⟩
                else x),
          pairs := db.pairs ++
            [⟨db.nextPairId, cid, w.id, db.nextMemberId, w.name ++ " & " ++ nm⟩],
          nextMemberId := db.nextMemberId + 1,
          nextPairId := db.nextPairId + 1 } cid = effectiveDuration db cid + 1
      unfold effectiveDuration membersOf pairsOf
      rw [← filter_and_split, ← filter_and_split]
      rw [hmem_eq]
      simp only [List.filter_append, List.length_append]
      have hnew : (List.filter
          (fun x : Member => x.committeeId == cid && decide (x.shareType = ShareType.Full))
          [⟨db.nextMemberId, cid, nm, ph, ShareType.Half, some db.nextPairId⟩]) = [] := by
        simp
      have hmap : (List.filter
            (fun x : Member => x.committeeId == cid && decide (x.shareType = ShareType.Full))
            (db.members.map
              (fun y => if y.id = w.id then { w with pairId := some db.nextPairId } else y))).length =
          (List.filter
            (fun x : Member => x.committeeId == cid && decide (x.shareType = ShareType.Full))
            db.members).length := by
        apply length_filter_map_congr
        intro y hy
        by_cases hyw : y.id = w.id
        · have hyweq : y = w := eq_of_nodup_keys Member.id db.members hnd y hy w hw hyw
          subst hyweq
          rw [if_pos rfl]
        · rw [if_neg hyw]
      have hpair : (List.filter (fun p : Pair => p.committeeId == cid)
          [⟨db.nextPairId, cid, w.id, db.nextMemberId, w.name ++ " & " ++ nm⟩]).length = 1 := by
        simp
      rw [hnew, hmap]
      simp only [List.length_nil, hpair]
      omega
  · intro db cid nm ph hnone
    have hfind : (membersOf db cid).find?
        (fun m => decide (m.shareType = ShareType.Half) && m.pairId.isNone) = none := by
      rw [List.find?_eq_none]
      intro x hx hpx
      have hxprops : x.shareType = ShareType.Half ∧ x.pairId = none := by
        simpa [Option.isNone_iff_eq_none] using hpx
      exact hnone x hx hxprops
    simp only [memberFormSubmit, hfind]
    rw [if_pos trivial]

/-- C3 (witness).  Adding half-share member Bob to `dbWaitingHalf` (whose
single half member Ann waits unpaired) creates the pair "Ann & Bob" of Ann
and Bob and raises the duration from 0 to 1. -/
theorem c3_half_share_pairing_witness :
    (memberFormSubmit dbWaitingHalf 1 "Bob" "" ShareType.Half).pairs =
      dbWaitingHalf.pairs ++ [⟨1, 1, 1, 2, "Ann" ++ " & " ++ "Bob"⟩] ∧
    effectiveDuration (memberFormSubmit dbWaitingHalf 1 "Bob" "" ShareType.Half) 1 =
      effectiveDuration dbWaitingHalf 1 + 1 := by
  have h := c3_half_share_pairing.1 dbWaitingHalf 1 "Bob" ""
    ⟨1, 1, "Ann", "", ShareType.Half, none⟩ (by decide) (by decide) (by decide)
    (by decide) (by decide) (by decide) (by decide)
  exact ⟨h.1, h.2.2.2.2⟩

end CommitteeManager
